import Mathlib

/-!
Verification of the crawler repository (crawler.py, basic_functions.py,
shopify_crawler.py) against its natural-language specification.

Strings are embedded as lists of characters (`Str`), so that every string
operation of the source (`str.replace`, `str.rsplit`, `str.split`,
`str.endswith`, ...) is a structurally recursive, kernel-computable Lean
function.  Loops of the source that are not structurally recursive
(`while True` in `write_to_file`, the crawl loop) are embedded with an
explicit fuel parameter; theorems below show the fuel chosen by the
top-level wrappers is always sufficient, so the fuel is an embedding
artifact, not a semantic change.

Collaborators (the `requests` HTTP client, `bs4` parsing, `urllib.parse`,
`sqlite3`, the filesystem) are modelled as explicit oracles / pure data:
a network oracle maps a URL to a response or a transport failure, the
filesystem is an association list from file names to byte contents, and
the sqlite table backing `CrawlerCache` is the list of its rows in rowid
(insertion) order, which is the order `fetchall` yields for an unordered
`SELECT` on this table.  The `sha1` content hash is modelled as
collision-free, so hexdigest equality is byte equality.
-/

namespace CrawlerModel

/-- Python strings, embedded as lists of characters. -/
abbrev Str := List Char

/-- Python bytes payloads. -/
abbrev Bytes := List Nat

/-- Python `str.lower` (per character, as `unicodedata` does for ASCII). -/
def strLower (s : Str) : Str := s.map Char.toLower

/-- Python `pat in s` (substring test). -/
def occursIn (pat : Str) : Str → Bool
  | [] => pat.isEmpty
  | c :: rest => pat.isPrefixOf (c :: rest) || occursIn pat rest

/-- Fueled core of Python `str.replace` (replace every non-overlapping
occurrence, scanning left to right).  The fuel is the length of the
scanned string; each step consumes at least one character. -/
def replaceAllFuel (pat rep : Str) : Nat → Str → Str
  | 0, s => s
  | _ + 1, [] => []
  | f + 1, c :: rest =>
    if !pat.isEmpty && pat.isPrefixOf (c :: rest) then
      rep ++ replaceAllFuel pat rep f ((c :: rest).drop pat.length)
    else
      c :: replaceAllFuel pat rep f rest

/-- Python `s.replace(pat, rep)` for a non-empty pattern. -/
def replaceAll (s pat rep : Str) : Str := replaceAllFuel pat rep s.length s

/-- Python `s.split(c)` on a single-character separator. -/
def splitOnChar (c : Char) : Str → List Str
  | [] => [[]]
  | x :: xs =>
    if x = c then [] :: splitOnChar c xs
    else
      match splitOnChar c xs with
      | h :: t => (x :: h) :: t
      | [] => [[x]]

/-- Python `s.rsplit('.', 1)` when it yields two parts: splits at the last
dot; `none` models the `ValueError` raised by unpacking a single part
(`new_name, suffix = file_name.rsplit('.', 1)` in `write_to_file`). -/
def rsplitDot : Str → Option (Str × Str)
  | [] => none
  | c :: cs =>
    match rsplitDot cs with
    | some (a, b) => some (c :: a, b)
    | none => if c = '.' then some ([], cs) else none

/-- Little-endian decimal digits of `n` (fueled; `fuel ≥ n` suffices). -/
def toDigitsRev : Nat → Nat → List Nat
  | 0, _ => []
  | f + 1, n => if n = 0 then [] else n % 10 :: toDigitsRev f (n / 10)

/-- Evaluation of little-endian decimal digits back to a number. -/
def ofDigitsRev : List Nat → Nat
  | [] => 0
  | d :: ds => d + 10 * ofDigitsRev ds

/-- Python `str(n)` for a natural number (decimal). -/
def natToStr (n : Nat) : Str :=
  if n = 0 then ['0'] else ((toDigitsRev n n).map Nat.digitChar).reverse

/-- Python `s.endswith(tuple)`. -/
def endsWithAnyOf (s : Str) (l : List Str) : Bool := l.any (fun sfx => sfx.isSuffixOf s)

/-- The suffix of `s` after the first occurrence of `pat`, if any. -/
def afterSub (pat : Str) : Str → Option Str
  | [] => if pat.isEmpty then some [] else none
  | c :: rest =>
    if pat.isPrefixOf (c :: rest) then some ((c :: rest).drop pat.length)
    else afterSub pat rest

/-- The `"://"` separator between a URL scheme and its network location. -/
def schemeSep : Str := ("://").data

/-- Modelled collaborator `urllib.parse.urlparse(u).netloc`: the host part
between `"://"` and the next `/`, `?` or `#`; empty for scheme-less
(relative) references. -/
def netlocOf (u : Str) : Str :=
  match afterSub schemeSep u with
  | some rest => rest.takeWhile (fun c => (c != '/') && (c != '?') && (c != '#'))
  | none => []

/-- Modelled collaborator `urllib.parse.urlsplit(u)[2]` (the path). -/
def pathOf (u : Str) : Str :=
  match afterSub schemeSep u with
  | some rest =>
    ((rest.dropWhile (fun c => (c != '/') && (c != '?') && (c != '#'))).takeWhile
      (fun c => (c != '?') && (c != '#')))
  | none => u.takeWhile (fun c => (c != '?') && (c != '#'))

/-- Modelled collaborator `urllib.parse.urljoin` for http(s) bases: an
absolute-path reference replaces the whole path, any other relative
reference replaces the last path segment. -/
def urljoin (base rel : Str) : Str :=
  match afterSub schemeSep base with
  | none => rel
  | some hostPath =>
    let scheme := base.take (base.length - (hostPath.length + schemeSep.length))
    let host := hostPath.takeWhile (fun c => c != '/')
    let path := hostPath.drop host.length
    if rel.take 1 = ['/'] then scheme ++ schemeSep ++ host ++ rel
    else
      let dir := (path.reverse.dropWhile (fun c => c != '/')).reverse
      let dir := if dir.isEmpty then ['/'] else dir
      scheme ++ schemeSep ++ host ++ dir ++ rel

/-- The last `/`-separated segment of a path: `path.split('/')[-1]`. -/
def lastSegment (p : Str) : Str :=
  match (splitOnChar '/' p).reverse with
  | h :: _ => h
  | [] => []

/-- The scheme prefix `"http://"`. -/
def httpScheme : Str := ("http://").data

/-- The scheme prefix `"https://"`. -/
def httpsScheme : Str := ("https://").data

/-- `crawler.url_in_list(url, listobj)`: membership of either the
`http://` or the `https://` variant of `url`, where each variant is
produced by `str.replace` (which replaces every occurrence). -/
def url_in_list (url : Str) (listobj : List Str) : Bool :=
  let http_version := replaceAll url httpsScheme httpScheme
  let https_version := replaceAll url httpScheme httpsScheme
  decide (http_version ∈ listobj) || decide (https_version ∈ listobj)

/-- `crawler.same_domain`, comparing the last two dot-separated labels of
each netloc, case-insensitively.  `lastTwoLabels` is the
`split('.')[-2] + '.' + split('.')[-1]` expression. -/
def lastTwoLabels (s : Str) : Str :=
  match (splitOnChar '.' s).reverse with
  | a :: b :: _ => b ++ '.' :: a
  | _ => s

/-- `crawler.same_domain(netloc1, netloc2)`. -/
def same_domain (netloc1 netloc2 : Str) : Bool :=
  let d1 := strLower netloc1
  let d1 := if d1.contains '.' then lastTwoLabels d1 else d1
  let d2 := strLower netloc2
  let d2 := if d2.contains '.' then lastTwoLabels d2 else d2
  decide (d1 = d2)

/-- One row of the sqlite `sites` table of `CrawlerCache`:
`(domain, url, content, store_time)`.  The domain is `Option` because the
crawler passes `self.domain`, which is `None` when single-domain scoping
is off; `store_time` is measured in days (the unit used by the
`timedelta(days=self.refresh)` freshness test). -/
structure CacheRow (α : Type) where
  domain : Option Str
  url : Str
  content : α
  store_time : Nat
deriving DecidableEq

/-- `CrawlerCache.set`: `INSERT` always appends a new row (rows are kept
in rowid = insertion order). -/
def cache_set {α : Type} (rows : List (CacheRow α)) (d : Option Str) (u : Str)
    (c : α) (now : Nat) : List (CacheRow α) :=
  rows ++ [⟨d, u, c, now⟩]

/-- `CrawlerCache.delete`: `DELETE` removes every row matching the pair. -/
def cache_delete {α : Type} (rows : List (CacheRow α)) (d : Option Str) (u : Str) :
    List (CacheRow α) :=
  rows.filter (fun r => !(decide (r.domain = d) && decide (r.url = u)))

/-- `CrawlerCache.get`: `fetchall` on the unordered `SELECT` yields the
matching rows in rowid (insertion) order and the code reads `row[0]`,
i.e. the first-inserted matching row; an expired first row is deleted
(together with every other matching row, since `delete` filters on the
pair) and `None` is returned.  Returns the value and the resulting table. -/
def cache_get {α : Type} [DecidableEq α] (rows : List (CacheRow α)) (refresh : Nat)
    (d : Option Str) (u : Str) (now : Nat) : Option α × List (CacheRow α) :=
  let row := rows.filter (fun r => decide (r.domain = d) && decide (r.url = u))
  match row with
  | [] => (none, rows)
  | r :: _ =>
    if r.store_time + refresh < now then (none, cache_delete rows d u)
    else (some r.content, rows)

/-- `CrawlerCache.get_urls`. -/
def cache_get_urls {α : Type} (rows : List (CacheRow α)) (d : Option Str) : List Str :=
  (rows.filter (fun r => decide (r.domain = d))).map (fun r => r.url)

/-- Repeated `CrawlerCache.set` calls for one `(domain, url)` key, each
with a content and a store time. -/
def setMany {α : Type} (rows : List (CacheRow α)) (d : Option Str) (u : Str)
    (l : List (α × Nat)) : List (CacheRow α) :=
  l.foldl (fun rs ct => cache_set rs d u ct.1 ct.2) rows

/-- A parsed HTML document (the `bs4` collaborator applied to a response
body): the href targets of its `a[href]` elements, in document order. -/
structure Page where
  hrefs : List Str
deriving DecidableEq

/-- Outcome of `requests.Session.get(url)`: a missing/invalid-scheme
exception, an SSL error, or a response carrying a content type, the
parsed body, a status code and raw bytes. -/
inductive FetchResult where
  | excSchema
  | excSSL
  | ok (contentType : Str) (page : Page) (status : Nat) (content : Bytes)
deriving DecidableEq

/-- Exceptions that reach the crawl loop: `HTMLException` (caught per
URL) and the `TypeError` raised by `bs4.BeautifulSoup(None, ...)`
(`len(None)`), which is not caught there. -/
inductive PyErr where
  | htmlException
  | typeError
deriving DecidableEq

/-- The content type prefix `get_html` accepts. -/
def htmlCT : Str := ("text/html").data

/-- `Crawler.get_html`: missing/invalid scheme raises `HTMLException`;
an SSL error is logged and the function returns `None`; a non-HTML
content type raises `HTMLException`; otherwise the response text (its
parse) is returned. -/
def get_html (net : Str → FetchResult) (url : Str) : Except PyErr (Option Page) :=
  match net url with
  | .excSchema => .error .htmlException
  | .excSSL => .ok none
  | .ok ct page _ _ =>
    if htmlCT.isPrefixOf ct then .ok (some page) else .error .htmlException

/-- `Crawler.get_links(url, soup)`: hrefs in document order, fragments
stripped (`urldefrag`), empties dropped, relative links resolved against
the page URL, and — when a (truthy) domain is fixed — links failing
`same_domain` dropped. -/
def get_links (url : Str) (soup : Page) (domain : Option Str) : List Str :=
  let links := soup.hrefs
  let links := links.map (fun l => l.takeWhile (fun c => c != '#'))
  let links := links.filter (fun l => !l.isEmpty)
  let links := links.map (fun l => if !(netlocOf l).isEmpty then l else urljoin url l)
  match domain with
  | some d => if d.isEmpty then links else links.filter (fun l => same_domain (netlocOf l) d)
  | none => links

/-- The sqlite-backed cache as the crawler holds it: its rows (contents
are response texts, which may be `None` after an SSL failure stored the
`get_html` result) and its `refresh` TTL in days. -/
structure CacheState where
  rows : List (CacheRow (Option Page))
  refresh : Nat
deriving DecidableEq

/-- `Crawler.get(url)`: when cacheable, look the page up (a stored `NULL`
and a missing row are both falsy, so both refetch), store the fetched
text, and parse it; `BeautifulSoup(None, "html.parser")` — reached when
`get_html` returned `None` after an SSL failure — raises `TypeError`.
Returns the result together with the possibly mutated cache. -/
def crawler_get (net : Str → FetchResult) (cache : Option CacheState) (noCache : Bool)
    (domain : Option Str) (now : Nat) (url : Str) :
    Except PyErr Page × Option CacheState :=
  match cache, noCache with
  | some cs, false =>
    let r := cache_get cs.rows cs.refresh domain url now
    let cs₁ : CacheState := ⟨r.2, cs.refresh⟩
    match r.1.bind id with
    | some p => (.ok p, some cs₁)
    | none =>
      match get_html net url with
      | .error e => (.error e, some cs₁)
      | .ok resp =>
        let cs₂ : CacheState := ⟨cache_set cs₁.rows domain url resp now, cs.refresh⟩
        match resp with
        | none => (.error .typeError, some cs₂)
        | some p => (.ok p, some cs₂)
  | _, _ =>
    match get_html net url with
    | .error e => (.error e, cache)
    | .ok none => (.error .typeError, cache)
    | .ok (some p) => (.ok p, cache)

/-- The body of `Crawler.crawl` (inside the `safe_func` decorator): the
FIFO frontier loop.  Per iteration: pop the head; `HTMLException` from
`get` increments `failed` and continues; any other exception propagates
out of the loop; on success the URL is recorded, `pages` incremented, the
page handler (log-only in the base class) invoked, the budget checked,
and unseen links appended one by one (each checked against the crawled
list and the current queue with the scheme-insensitive test).  The fuel
counts loop iterations; `none` means the fuel ran out. -/
def crawlLoop (net : Str → FetchResult) (maxPages : Nat) (domain : Option Str)
    (noCache : Bool) (now : Nat) :
    Nat → Option CacheState → List Str → Nat → Nat → List Str →
    Option (Except PyErr (Nat × Nat × List Str))
  | 0, _, _, _, _, _ => none
  | _ + 1, _, [], pages, failed, crawled => some (.ok (pages, failed, crawled))
  | fuel + 1, cache, url :: rest, pages, failed, crawled =>
    match crawler_get net cache noCache domain now url with
    | (.error .htmlException, cache₁) =>
      crawlLoop net maxPages domain noCache now fuel cache₁ rest pages (failed + 1) crawled
    | (.error e, _) => some (.error e)
    | (.ok soup, cache₁) =>
      let crawled₁ := crawled ++ [url]
      let pages₁ := pages + 1
      if pages₁ ≥ maxPages then some (.ok (pages₁, failed, crawled₁))
      else
        let links := get_links url soup domain
        let queue₁ := links.foldl
          (fun q link =>
            if !url_in_list link crawled₁ && !url_in_list link q then q ++ [link] else q)
          rest
        crawlLoop net maxPages domain noCache now fuel cache₁ queue₁ pages₁ failed crawled₁

/-- `basic_functions.safe_func`: the decorator catches, logs (at debug
level) and ignores every exception; the decorated call returns `None`
when any exception occurs, and the function value otherwise. -/
def safe_func {α : Type} : Except PyErr α → Option α
  | .ok a => some a
  | .error _ => none

/-- `Crawler.crawl(start_page, no_cache)` under `@safe_func`: the domain
is the start page netloc when single-domain scoping is on, else `None`;
the loop result is the pair of counters and the crawled list (the
observables the final log line reports).  The outer `Option` is the fuel
artifact; the inner `Option` is the `safe_func` result. -/
def crawl (net : Str → FetchResult) (maxPages : Nat) (singleDomain : Bool)
    (cache : Option CacheState) (now : Nat) (start : Str) (noCache : Bool)
    (fuel : Nat) : Option (Option (Nat × Nat × List Str)) :=
  let domain := if singleDomain then some (netlocOf start) else none
  (crawlLoop net maxPages domain noCache now fuel cache [start] 0 0 []).map safe_func

/-- The directory of stored assets: file names with their byte contents,
in creation order.  Names are unique (every write first checks
existence). -/
abbrev FileStore := List (Str × Bytes)

/-- `os.path.exists` / reading a stored file. -/
def lookupFile : FileStore → Str → Option Bytes
  | [], _ => none
  | (n, d) :: rest, name => if n = name then some d else lookupFile rest name

/-- The candidate name `"{base}_{count}.{suffix}"` built by the collision
loop of `write_to_file`. -/
def chainName (base sfx : Str) (count : Nat) : Str :=
  base ++ '_' :: (natToStr count ++ '.' :: sfx)

/-- The `while True` loop of `crawler.write_to_file`: if the candidate
name does not exist, write there and stop; if it holds bytes with the
same (collision-free) sha1, stop without writing; otherwise build the
next candidate from the original name with a counter and retry.  `none`
is the `ValueError` of `rsplit` unpacking on a dot-less name, or fuel
exhaustion. -/
def writeLoop (store : FileStore) (data : Bytes) (file_name : Str) :
    Nat → Str → Nat → Option FileStore
  | 0, _, _ => none
  | fuel + 1, new_name, count =>
    match lookupFile store new_name with
    | none => some (store ++ [(new_name, data)])
    | some stored =>
      if stored = data then some store
      else
        match rsplitDot file_name with
        | none => none
        | some (b, sfx) =>
          writeLoop store data file_name fuel (chainName b sfx count) (count + 1)

/-- `crawler.write_to_file(data, file_name)` on a given store.  The fuel
`store.length + 2` always suffices (shown below): the candidate names are
pairwise distinct, so within that many iterations one of them is free. -/
def write_to_file (data : Bytes) (file_name : Str) (store : FileStore) : Option FileStore :=
  writeLoop store data file_name (store.length + 2) file_name 0

/-- `ImageCrawler.suffix_list`. -/
def suffix_list : List Str :=
  [(".jpg").data, (".gif").data, (".png").data, (".tif").data, (".svg").data, (".ico").data]

/-- The destination file name `download_image` derives:
`os.path.join(path_images, urlsplit(img_url)[2].split('/')[-1])`. -/
def imageFileName (pathImages : Str) (imgUrl : Str) : Str :=
  pathImages ++ '/' :: lastSegment (pathOf imgUrl)

/-- `ImageCrawler.download_image(img_url)`: scheme and SSL failures are
logged and abandon the download; otherwise the file is written only when
the derived name ends with a whitelisted suffix and the status code is
`requests.codes.ok` (200).  Returns the resulting store (`none` only if
`write_to_file` raised). -/
def download_image (net : Str → FetchResult) (pathImages : Str) (store : FileStore)
    (imgUrl : Str) : Option FileStore :=
  let file_name := imageFileName pathImages imgUrl
  match net imgUrl with
  | .excSchema => some store
  | .excSSL => some store
  | .ok _ _ status content =>
    if endsWithAnyOf file_name suffix_list && (status == 200) then
      write_to_file content file_name store
    else some store

/-- A product detail payload `response.json()["product"]`: its title and
its `image` field, `none` when the image field is falsy (the code then
stores an empty string instead of `["image"]["src"]`). -/
structure PJson where
  title : Str
  image : Option Str
deriving DecidableEq

/-- A shopify response body, pre-processed by the regex / bs4
collaborators: the `_email_regex.findall` matches, the href targets
`find_all` can see, and the decoded product JSON (`none` models a
`JSONDecodeError` from `response.json()`). -/
structure SBody where
  emailMatches : List Str
  hrefs : List Str
  productJson : Option PJson
deriving DecidableEq

/-- Outcome of `requests.Session.get` in `shopify_crawler.py`:
`MissingSchema`/`ConnectionError` or a response with a status code. -/
inductive SResp where
  | connError
  | resp (status : Nat) (body : SBody)
deriving DecidableEq

/-- A CSV record / Python dict value: a string, a set (modelled as an
insertion-ordered duplicate-free list) or a list of strings. -/
inductive Val where
  | s (v : Str)
  | set (v : List Str)
  | lst (v : List Str)
deriving DecidableEq

/-- A Python dict with string keys in insertion order. -/
abbrev Record := List (Str × Val)

/-- Python dict assignment: replace in place, or append a new key. -/
def dictSet : Record → Str → Val → Record
  | [], k, v => [(k, v)]
  | (k', v') :: rest, k, v =>
    if k' = k then (k, v) :: rest else (k', v') :: dictSet rest k v

/-- Python dict lookup. -/
def lookupVal : Record → Str → Option Val
  | [], _ => none
  | (k', v') :: rest, k => if k' = k then some v' else lookupVal rest k

/-- `self.data["url"]` (the input records carry a string there). -/
def dictGetStr (r : Record) (k : Str) : Str :=
  match lookupVal r k with
  | some (.s v) => v
  | _ => []

/-- `set.add`: sets are modelled as insertion-ordered dedup lists. -/
def setAdd (l : List Str) (x : Str) : List Str := if x ∈ l then l else l ++ [x]

/-- `set.update`. -/
def setUnion (l : List Str) (xs : List Str) : List Str := xs.foldl setAdd l

/-- The record keys used by `shopify_crawler.py`. -/
def urlKey : Str := ("url").data

/-- The `"email"` key. -/
def emailKey : Str := ("email").data

/-- The `"facebook"` key. -/
def facebookKey : Str := ("facebook").data

/-- The `"twitter"` key. -/
def twitterKey : Str := ("twitter").data

/-- The key `"title i"` (note the space, as in `"title " + str(i)`). -/
def titleKey (i : Nat) : Str := ("title ").data ++ natToStr i

/-- The key `"image i"`. -/
def imageKey (i : Nat) : Str := ("image ").data ++ natToStr i

/-- `Crawler._email_black_list`. -/
def email_black_list : List Str :=
  [(".png").data, (".jpg").data, (".jpeg").data, (".gif").data, ("example.com").data]

/-- `Crawler._sub_pages`. -/
def sub_pages : List Str :=
  [[], ("about").data, ("about-us").data, ("contact").data, ("contact-us").data]

/-- Modelled collaborator `urlunparse(("http", netloc, path, None, None, None))`:
CPython's `urlunsplit` inserts a `/` before a non-empty path that does
not already start with one. -/
def urlunparse_http (netloc path : Str) : Str :=
  httpScheme ++ netloc ++
    (if path.isEmpty then [] else if path.take 1 = ['/'] then path else '/' :: path)

/-- `Crawler.get_contacts(data)`: lower-cased email matches whose raw
form does not end with a blacklisted suffix, collected into a set; hrefs
matching `facebook.com|twitter.com`, each added to the facebook set when
it contains `"facebook"` and to the twitter set otherwise. -/
def get_contacts (body : SBody) : List Str × List Str × List Str :=
  let emails := ((body.emailMatches.filter
      (fun item => !endsWithAnyOf item email_black_list)).map strLower).foldl setAdd []
  let social := body.hrefs.filter
    (fun h => occursIn (("facebook.com").data) h || occursIn (("twitter.com").data) h)
  let facebook := (social.filter (fun h => occursIn (("facebook").data) h)).foldl setAdd []
  let twitter := (social.filter (fun h => !occursIn (("facebook").data) h)).foldl setAdd []
  (emails, facebook, twitter)

/-- One step of `Crawler._convert_to_list`: an empty set becomes `""`, a
singleton its sole element, anything else the list of elements. -/
def convertVal : Val → Val
  | .set l =>
    if l.isEmpty then .s [] else if l.length = 1 then .s (l.headD []) else .lst l
  | v => v

/-- `Crawler._convert_to_list`. -/
def convert_to_list (r : Record) : Record :=
  [emailKey, facebookKey, twitterKey].foldl
    (fun rc k =>
      match lookupVal rc k with
      | some v => dictSet rc k (convertVal v)
      | none => rc)
    r

/-- The product-link collection loop of `get_first_products`: keep an
href when it starts with `/` and is not an exact duplicate, and break
once the list has reached the limit (checked after each candidate). -/
def collectProducts (limit : Nat) : List Str → List Str → List Str
  | acc, [] => acc
  | acc, h :: t =>
    let acc₁ := if (h.take 1 = ['/']) && !acc.contains h then acc ++ [h] else acc
    if acc₁.length ≥ limit then acc₁ else collectProducts limit acc₁ t

/-- The trailing `while i <= limit` of `get_first_products` (also
`Crawler._fill_empty` with `i = 1`): fill the remaining `title i` /
`image i` slots with empty strings.  The fuel is `limit + 1 - i` at
most, so `limit + 1` always suffices. -/
def fillFrom (limit : Nat) : Nat → Nat → Record → Record
  | 0, _, r => r
  | f + 1, i, r =>
    if i ≤ limit then
      fillFrom limit f (i + 1) (dictSet (dictSet r (titleKey i) (.s [])) (imageKey i) (.s []))
    else r

/-- `Crawler._fill_empty(count)`. -/
def fill_empty (count : Nat) (r : Record) : Record := fillFrom count (count + 1) 1 r

/-- The per-product loop of `get_first_products`: fetch each product
JSON endpoint; `MissingSchema`/`ConnectionError` and 404 skip the URL
without consuming a slot (the `continue` jumps over `i += 1`);
a `JSONDecodeError` stores empty strings; otherwise the title and the
image source (or `""` when the image field is falsy) are stored.  The
remaining slots are filled with empty strings afterwards. -/
def productLoop (net : Str → SResp) (limit : Nat) : List Str → Nat → Record → Record
  | [], i, r => fillFrom limit (limit + 1) i r
  | u :: rest, i, r =>
    match net u with
    | .connError => productLoop net limit rest i r
    | .resp 404 _ => productLoop net limit rest i r
    | .resp _ body =>
      match body.productJson with
      | none =>
        productLoop net limit rest (i + 1)
          (dictSet (dictSet r (titleKey i) (.s [])) (imageKey i) (.s []))
      | some pj =>
        let r₁ := dictSet r (titleKey i) (.s pj.title)
        let r₂ :=
          match pj.image with
          | some src => dictSet r₁ (imageKey i) (.s src)
          | none => dictSet r₁ (imageKey i) (.s [])
        productLoop net limit rest (i + 1) r₂

/-- `Crawler.get_first_products(limit)`: probe `/collections/all`;
failures and 404 fill every slot empty; otherwise collect up to `limit`
distinct `/products/` links in document order and fetch each `.json`
detail endpoint. -/
def get_first_products (net : Str → SResp) (netloc : Str) (limit : Nat) (r : Record) :
    Record :=
  let url_collections := urlunparse_http netloc (("collections/all").data)
  match net url_collections with
  | .connError => fill_empty limit r
  | .resp 404 _ => fill_empty limit r
  | .resp _ body =>
    let products :=
      collectProducts limit [] (body.hrefs.filter (fun h => occursIn (("/products/").data) h))
    let urls := products.map (fun p => urlunparse_http netloc (p ++ (".json").data))
    productLoop net limit urls 1 r

/-- The per-work-item body of `shopify_crawler.Crawler.run`: initialise
the three contact sets, probe the five well-known sub-pages (scheme /
connection errors and 404 are silently skipped), merge the extracted
contacts, convert the sets, then collect the first five products. -/
def process_item (net : Str → SResp) (item : Record) : Record :=
  let netloc := dictGetStr item urlKey
  let r := dictSet item emailKey (.set [])
  let r := dictSet r facebookKey (.set [])
  let r := dictSet r twitterKey (.set [])
  let urls := sub_pages.map (urlunparse_http netloc)
  let r := urls.foldl
    (fun rc u =>
      match net u with
      | .connError => rc
      | .resp 404 _ => rc
      | .resp _ body =>
        let c := get_contacts body
        let rc := match lookupVal rc emailKey with
          | some (.set l) => dictSet rc emailKey (.set (setUnion l c.1))
          | _ => rc
        let rc := match lookupVal rc facebookKey with
          | some (.set l) => dictSet rc facebookKey (.set (setUnion l c.2.1))
          | _ => rc
        match lookupVal rc twitterKey with
        | some (.set l) => dictSet rc twitterKey (.set (setUnion l c.2.2))
        | _ => rc)
    r
  let r := convert_to_list r
  get_first_products net netloc 5 r

/-- The worker pool of `shopify_crawler.main`: the threads drain the
shared queue, each work item is processed to completion by exactly one
worker, the records are disjoint, and the per-item computation is
deterministic, so the pool's aggregate result (read only after every
`join`) is schedule-independent: it is the per-item function mapped over
the input rows. -/
def run_pool (net : Str → SResp) (items : List Record) : List Record :=
  items.map (process_item net)

/-- Start page of the concrete traversal scenarios. -/
def urlS : Str := ("http://ex.com/").data

/-- Page B, linked first from the start page. -/
def urlB : Str := ("http://ex.com/b").data

/-- Page C, linked second from the start page. -/
def urlC : Str := ("http://ex.com/c").data

/-- Page D, linked only from B. -/
def urlD : Str := ("http://ex.com/d").data

/-- Network oracle for the breadth-first scenario: the start page links
to B then C, B links to D, every fetch succeeds with HTML. -/
def netBFS : Str → FetchResult := fun u =>
  if u = urlS then .ok htmlCT ⟨[urlB, urlC]⟩ 200 []
  else if u = urlB then .ok htmlCT ⟨[urlD]⟩ 200 []
  else .ok htmlCT ⟨[]⟩ 200 []

/-- Network oracle for the transport-failure scenario: the start page
links to B then C, fetching B fails with an SSL error, C is fine. -/
def netSSL : Str → FetchResult := fun u =>
  if u = urlS then .ok htmlCT ⟨[urlB, urlC]⟩ 200 []
  else if u = urlB then .excSSL
  else .ok htmlCT ⟨[]⟩ 200 []

/-- Asset oracle: every URL answers 200 with the same payload `[9]`. -/
def netImg : Str → FetchResult := fun _ => .ok htmlCT ⟨[]⟩ 200 [9]

/-- Asset oracle answering 404 with payload `[5]`. -/
def netNotFound : Str → FetchResult := fun _ => .ok htmlCT ⟨[]⟩ 404 [5]

/-- The default image directory `os.path.join('.', 'images')`. -/
def imgsDir : Str := ("./images").data

/-- First asset URL of the duplicate-content scenario. -/
def imgU1 : Str := ("http://a.com/x.jpg").data

/-- Second asset URL, on a different host, with a different file name
but the same payload. -/
def imgU2 : Str := ("http://b.org/y.jpg").data

/-- A URL remainder that itself contains `"http://"` (a redirect-style
query parameter). -/
def embeddedRemainder : Str := ("a.com/?x=http://b").data

/-- First input domain of the worker-pool scenario. -/
def dom1 : Str := ("d1.com").data

/-- Second input domain of the worker-pool scenario. -/
def dom2 : Str := ("d2.com").data

/-- An empty parsed body. -/
def emptyBody : SBody := ⟨[], [], none⟩

/-- Worker-pool oracle: every request to the first domain raises a
connection error and every other request answers 404, so no sub-page and
no product of either domain is reachable. -/
def net8 : Str → SResp := fun u =>
  if occursIn dom1 u then .connError else .resp 404 emptyBody

/-- The two worker-pool input records. -/
def items8 : List Record := [[(urlKey, .s dom1)], [(urlKey, .s dom2)]]

/-- The record the worker pool is expected to produce for a domain with
no reachable pages: the url and empty strings for every other field. -/
def expectedRecord (d : Str) : Record :=
  [(urlKey, .s d), (emailKey, .s []), (facebookKey, .s []), (twitterKey, .s []),
   (titleKey 1, .s []), (imageKey 1, .s []), (titleKey 2, .s []), (imageKey 2, .s []),
   (titleKey 3, .s []), (imageKey 3, .s []), (titleKey 4, .s []), (imageKey 4, .s []),
   (titleKey 5, .s []), (imageKey 5, .s [])]

/-! Lemmas about the embedded file store. -/

theorem lookupFile_append_of_none {s : FileStore} {n : Str} (t : FileStore)
    (h : lookupFile s n = none) : lookupFile (s ++ t) n = lookupFile t n := by
  induction s with
  | nil => rfl
  | cons p rest ih =>
    obtain ⟨pn, pd⟩ := p
    by_cases hn : pn = n
    · simp [lookupFile, hn] at h
    · simp only [lookupFile, if_neg hn] at h
      simpa [lookupFile, hn] using ih h

theorem lookupFile_append_of_some {s : FileStore} {n : Str} {d : Bytes} (t : FileStore)
    (h : lookupFile s n = some d) : lookupFile (s ++ t) n = some d := by
  induction s with
  | nil => simp [lookupFile] at h
  | cons p rest ih =>
    obtain ⟨pn, pd⟩ := p
    by_cases hn : pn = n
    · simp only [lookupFile, if_pos hn] at h
      simp [lookupFile, hn, h]
    · simp only [lookupFile, if_neg hn] at h
      simpa [lookupFile, hn] using ih h

theorem lookupFile_mem_keys {s : FileStore} {n : Str} {d : Bytes}
    (h : lookupFile s n = some d) : n ∈ s.map Prod.fst := by
  induction s with
  | nil => simp [lookupFile] at h
  | cons p rest ih =>
    obtain ⟨pn, pd⟩ := p
    by_cases hn : pn = n
    · simp [hn]
    · simp only [lookupFile, if_neg hn] at h
      simpa using Or.inr (ih h)

/-! Injectivity of the decimal rendering `natToStr`. -/

theorem ofDigitsRev_toDigitsRev : ∀ fuel n, n ≤ fuel → ofDigitsRev (toDigitsRev fuel n) = n := by
  intro fuel
  induction fuel with
  | zero => intro n h; interval_cases n; rfl
  | succ f ih =>
    intro n h
    by_cases h0 : n = 0
    · simp [toDigitsRev, h0, ofDigitsRev]
    · have hdiv : n / 10 ≤ f := by omega
      simp only [toDigitsRev, if_neg h0, ofDigitsRev, ih _ hdiv]
      omega

theorem toDigitsRev_lt_ten : ∀ fuel n d, d ∈ toDigitsRev fuel n → d < 10 := by
  intro fuel
  induction fuel with
  | zero => intro n d h; simp [toDigitsRev] at h
  | succ f ih =>
    intro n d h
    by_cases h0 : n = 0
    · simp [toDigitsRev, h0] at h
    · simp only [toDigitsRev, if_neg h0, List.mem_cons] at h
      rcases h with h | h
      · omega
      · exact ih _ _ h

theorem digitChar_inj_lt : ∀ a < 10, ∀ b < 10, Nat.digitChar a = Nat.digitChar b → a = b := by
  decide

theorem map_digitChar_inj :
    ∀ (l₁ l₂ : List Nat), (∀ x ∈ l₁, x < 10) → (∀ x ∈ l₂, x < 10) →
      l₁.map Nat.digitChar = l₂.map Nat.digitChar → l₁ = l₂ := by
  intro l₁
  induction l₁ with
  | nil => intro l₂ _ _ h; cases l₂ <;> simp_all
  | cons a t ih =>
    intro l₂ h₁ h₂ h
    cases l₂ with
    | nil => simp at h
    | cons b t₂ =>
      simp only [List.map_cons, List.cons.injEq] at h
      have ha : a = b :=
        digitChar_inj_lt a (h₁ a (by simp)) b (h₂ b (by simp)) h.1
      have ht : t = t₂ :=
        ih t₂ (fun x hx => h₁ x (by simp [hx])) (fun x hx => h₂ x (by simp [hx])) h.2
      rw [ha, ht]

theorem natToStr_injective : ∀ {m n : Nat}, natToStr m = natToStr n → m = n := by
  intro m n h
  by_cases hm : m = 0 <;> by_cases hn : n = 0
  · omega
  · exfalso
    simp only [natToStr, if_pos hm, if_neg hn] at h
    have h' : (toDigitsRev n n).map Nat.digitChar = ['0'] := by
      have := congrArg List.reverse h
      simpa using this.symm
    cases hd : toDigitsRev n n with
    | nil => rw [hd] at h'; simp at h'
    | cons d ds =>
      rw [hd] at h'
      simp only [List.map_cons, List.cons.injEq] at h'
      have hds : ds = [] := by
        have := h'.2
        cases ds <;> simp_all
      have hd0 : d = 0 := by
        refine digitChar_inj_lt d ?_ 0 (by omega) (by simpa using h'.1)
        exact toDigitsRev_lt_ten n n d (by simp [hd])
      have := ofDigitsRev_toDigitsRev n n le_rfl
      rw [hd, hds, hd0] at this
      simp [ofDigitsRev] at this
      omega
  · exfalso
    simp only [natToStr, if_neg hm, if_pos hn] at h
    have h' : (toDigitsRev m m).map Nat.digitChar = ['0'] := by
      have := congrArg List.reverse h
      simpa using this
    cases hd : toDigitsRev m m with
    | nil => rw [hd] at h'; simp at h'
    | cons d ds =>
      rw [hd] at h'
      simp only [List.map_cons, List.cons.injEq] at h'
      have hds : ds = [] := by
        have := h'.2
        cases ds <;> simp_all
      have hd0 : d = 0 := by
        refine digitChar_inj_lt d ?_ 0 (by omega) (by simpa using h'.1)
        exact toDigitsRev_lt_ten m m d (by simp [hd])
      have := ofDigitsRev_toDigitsRev m m le_rfl
      rw [hd, hds, hd0] at this
      simp [ofDigitsRev] at this
      omega
  · simp only [natToStr, if_neg hm, if_neg hn] at h
    have h' := List.reverse_injective h
    have hmm := map_digitChar_inj _ _
      (fun x hx => toDigitsRev_lt_ten m m x hx)
      (fun x hx => toDigitsRev_lt_ten n n x hx) h'
    have h₁ := ofDigitsRev_toDigitsRev m m le_rfl
    have h₂ := ofDigitsRev_toDigitsRev n n le_rfl
    rw [hmm] at h₁
    omega

/-! The candidate names of the collision loop are pairwise distinct. -/

theorem chainName_inj {b sfx : Str} {i j : Nat} (h : chainName b sfx i = chainName b sfx j) :
    i = j := by
  unfold chainName at h
  have h₁ := List.append_cancel_left h
  simp only [List.cons.injEq, true_and] at h₁
  have h₂ := List.append_cancel_right h₁
  exact natToStr_injective h₂

theorem rsplitDot_eq : ∀ {f b sfx : Str}, rsplitDot f = some (b, sfx) → f = b ++ '.' :: sfx := by
  intro f
  induction f with
  | nil => intro b sfx h; simp [rsplitDot] at h
  | cons c cs ih =>
    intro b sfx h
    simp only [rsplitDot] at h
    cases hr : rsplitDot cs with
    | some p =>
      obtain ⟨a, t⟩ := p
      rw [hr] at h
      simp only [Option.some.injEq, Prod.mk.injEq] at h
      have := ih hr
      rw [← h.1, ← h.2]
      simp [this]
    | none =>
      rw [hr] at h
      by_cases hc : c = '.'
      · simp only [if_pos hc, Option.some.injEq, Prod.mk.injEq] at h
        rw [← h.1, ← h.2, hc]
        simp
      · simp [if_neg hc] at h

theorem chainName_ne_base {f b sfx : Str} (hf : rsplitDot f = some (b, sfx)) (k : Nat) :
    chainName b sfx k ≠ f := by
  intro h
  have hfe := rsplitDot_eq hf
  have := congrArg List.length (h.trans hfe)
  unfold chainName at this
  simp only [List.length_append, List.length_cons] at this
  omega
/-! Behaviour of the collision loop of `write_to_file`. -/

theorem writeLoop_some_shape (store : FileStore) (data : Bytes) (f : Str) :
    ∀ (fuel : Nat) (nm : Str) (ct : Nat) (s' : FileStore),
      writeLoop store data f fuel nm ct = some s' →
      s' = store ∨ ∃ n, lookupFile store n = none ∧ s' = store ++ [(n, data)] := by
  intro fuel
  induction fuel with
  | zero => intro nm ct s' h; simp [writeLoop] at h
  | succ fl ih =>
    intro nm ct s' h
    simp only [writeLoop] at h
    cases h1 : lookupFile store nm with
    | none =>
      simp only [h1, Option.some.injEq] at h
      exact Or.inr ⟨nm, h1, h.symm⟩
    | some stored =>
      simp only [h1] at h
      by_cases h2 : stored = data
      · rw [if_pos h2] at h
        simp only [Option.some.injEq] at h
        exact Or.inl h.symm
      · rw [if_neg h2] at h
        cases h3 : rsplitDot f with
        | none => simp only [h3] at h; exact Option.noConfusion h
        | some p =>
          obtain ⟨b, sfx⟩ := p
          simp only [h3] at h
          exact ih _ _ _ h

theorem writeLoop_fuel_add (store : FileStore) (data : Bytes) (f : Str) :
    ∀ (fuel : Nat) (nm : Str) (ct : Nat) (s' : FileStore),
      writeLoop store data f fuel nm ct = some s' →
      ∀ k, writeLoop store data f (fuel + k) nm ct = some s' := by
  intro fuel
  induction fuel with
  | zero => intro nm ct s' h; simp [writeLoop] at h
  | succ fl ih =>
    intro nm ct s' h k
    have harith : fl + 1 + k = (fl + k) + 1 := by omega
    rw [harith]
    simp only [writeLoop] at h ⊢
    cases h1 : lookupFile store nm with
    | none => simp only [h1] at h ⊢; exact h
    | some stored =>
      simp only [h1] at h ⊢
      by_cases h2 : stored = data
      · rw [if_pos h2] at h ⊢; exact h
      · rw [if_neg h2] at h ⊢
        cases h3 : rsplitDot f with
        | none => simp only [h3] at h; exact Option.noConfusion h
        | some p =>
          obtain ⟨b, sfx⟩ := p
          simp only [h3] at h ⊢
          exact ih _ _ _ h k

theorem writeLoop_idem (store : FileStore) (data : Bytes) (f : Str) :
    ∀ (fuel : Nat) (nm : Str) (ct : Nat) (s' : FileStore),
      writeLoop store data f fuel nm ct = some s' →
      writeLoop s' data f fuel nm ct = some s' := by
  intro fuel
  induction fuel with
  | zero => intro nm ct s' h; simp [writeLoop] at h
  | succ fl ih =>
    intro nm ct s' h
    simp only [writeLoop] at h ⊢
    cases h1 : lookupFile store nm with
    | none =>
      simp only [h1, Option.some.injEq] at h
      have h4 : lookupFile s' nm = some data := by
        rw [← h, lookupFile_append_of_none _ h1]
        simp [lookupFile]
      simp [h4]
    | some stored =>
      simp only [h1] at h
      by_cases h2 : stored = data
      · rw [if_pos h2] at h
        simp only [Option.some.injEq] at h
        simp only [← h, h1, if_pos h2]
      · rw [if_neg h2] at h
        cases h3 : rsplitDot f with
        | none => simp only [h3] at h; exact Option.noConfusion h
        | some p =>
          obtain ⟨b, sfx⟩ := p
          simp only [h3] at h
          have h1' : lookupFile s' nm = some stored := by
            rcases writeLoop_some_shape store data f fl _ _ _ h with rfl | ⟨n, _, rfl⟩
            · exact h1
            · exact lookupFile_append_of_some _ h1
          simp only [h1', if_neg h2, h3]
          exact ih _ _ _ h

theorem write_to_file_idem {store s' : FileStore} {data : Bytes} {f : Str}
    (h : write_to_file data f store = some s') : write_to_file data f s' = some s' := by
  unfold write_to_file at h ⊢
  have hshape := writeLoop_some_shape store data f _ _ _ _ h
  have hlen : ∃ k, s'.length + 2 = (store.length + 2) + k := by
    rcases hshape with rfl | ⟨n, _, rfl⟩
    · exact ⟨0, rfl⟩
    · exact ⟨1, by simp⟩
  obtain ⟨k, hk⟩ := hlen
  rw [hk]
  exact writeLoop_fuel_add s' data f _ _ _ _ (writeLoop_idem store data f _ _ _ _ h) k

theorem writeLoop_none_head (store : FileStore) (data : Bytes) (f : Str) {fuel : Nat}
    {nm : Str} {ct : Nat} (hfuel : 1 ≤ fuel)
    (h : writeLoop store data f fuel nm ct = none) :
    ∃ d', lookupFile store nm = some d' ∧ d' ≠ data := by
  cases fuel with
  | zero => omega
  | succ fl =>
    simp only [writeLoop] at h
    cases h1 : lookupFile store nm with
    | none => simp only [h1] at h; exact Option.noConfusion h
    | some stored =>
      simp only [h1] at h
      by_cases h2 : stored = data
      · rw [if_pos h2] at h; simp at h
      · exact ⟨stored, rfl, h2⟩

theorem writeLoop_none_chain (store : FileStore) (data : Bytes) (f b sfx : Str)
    (hf : rsplitDot f = some (b, sfx)) :
    ∀ (fuel : Nat) (nm : Str) (ct : Nat), writeLoop store data f fuel nm ct = none →
      ∀ k, k + 2 ≤ fuel →
        ∃ d', lookupFile store (chainName b sfx (ct + k)) = some d' ∧ d' ≠ data := by
  intro fuel
  induction fuel with
  | zero => intro nm ct h k hk; omega
  | succ fl ih =>
    intro nm ct h k hk
    simp only [writeLoop] at h
    cases h1 : lookupFile store nm with
    | none => simp only [h1] at h; exact Option.noConfusion h
    | some stored =>
      simp only [h1] at h
      by_cases h2 : stored = data
      · rw [if_pos h2] at h; simp at h
      · rw [if_neg h2] at h
        simp only [hf] at h
        cases k with
        | zero =>
          have hfl : 1 ≤ fl := by omega
          simpa using writeLoop_none_head store data f hfl h
        | succ k' =>
          have hk' : k' + 2 ≤ fl := by omega
          have hrec := ih _ _ h k' hk'
          have harith : ct + 1 + k' = ct + (k' + 1) := by omega
          rwa [harith] at hrec

theorem write_to_file_total {store : FileStore} {data : Bytes} {f b sfx : Str}
    (hf : rsplitDot f = some (b, sfx)) :
    ∃ s', write_to_file data f store = some s' := by
  unfold write_to_file
  cases hw : writeLoop store data f (store.length + 2) f 0 with
  | some s' => exact ⟨s', rfl⟩
  | none =>
    exfalso
    have hocc : ∀ k, k ≤ store.length → chainName b sfx k ∈ store.map Prod.fst := by
      intro k hk
      obtain ⟨d', hd', _⟩ :=
        writeLoop_none_chain store data f b sfx hf _ _ _ hw k (by omega)
      exact lookupFile_mem_keys (by simpa using hd')
    have hnodup : ((List.range (store.length + 1)).map (chainName b sfx)).Nodup :=
      List.Nodup.map (fun a b hab => chainName_inj hab) (List.nodup_range _)
    have hsub : ((List.range (store.length + 1)).map (chainName b sfx)) ⊆ store.map Prod.fst := by
      intro x hx
      simp only [List.mem_map, List.mem_range] at hx
      obtain ⟨k, hk, rfl⟩ := hx
      exact hocc k (by omega)
    have hle := (List.subperm_of_subset hnodup hsub).length_le
    simp only [List.length_map, List.length_range] at hle
    omega

/-! Behaviour of `str.replace`, as used by `url_in_list`. -/

theorem isPrefixOf_append_self : ∀ (l t : Str), l.isPrefixOf (l ++ t) = true := by
  intro l t
  induction l with
  | nil => cases t <;> rfl
  | cons c cs ih => simp [List.isPrefixOf, ih]

theorem replaceAllFuel_no_occurrence {pat rep : Str} :
    ∀ (s : Str) (fuel : Nat), occursIn pat s = false → replaceAllFuel pat rep fuel s = s := by
  intro s
  induction s with
  | nil => intro fuel _; cases fuel <;> rfl
  | cons c cs ih =>
    intro fuel h
    simp only [occursIn, Bool.or_eq_false_iff] at h
    cases fuel with
    | zero => rfl
    | succ fl =>
      simp only [replaceAllFuel, h.1, Bool.and_false]
      rw [if_neg (by simp)]
      rw [ih fl h.2]

theorem replaceAll_prefix_swap {pat rep rest : Str} (hpat : pat ≠ [])
    (h : occursIn pat rest = false) : replaceAll (pat ++ rest) pat rep = rep ++ rest := by
  unfold replaceAll
  cases pat with
  | nil => exact absurd rfl hpat
  | cons p ps =>
    have hpre : (p :: ps).isPrefixOf (p :: (ps ++ rest)) = true :=
      isPrefixOf_append_self (p :: ps) rest
    have hdrop : List.drop (p :: ps).length (p :: (ps ++ rest)) = rest := by
      show List.drop ((p :: ps).length) ((p :: ps) ++ rest) = rest
      exact List.drop_left _ _
    show replaceAllFuel (p :: ps) rep ((p :: ps ++ rest).length) (p :: ps ++ rest) = rep ++ rest
    simp only [List.cons_append, List.length_cons]
    simp only [replaceAllFuel, List.isEmpty_cons, Bool.not_false, Bool.true_and, hpre, if_true]
    rw [hdrop, replaceAllFuel_no_occurrence rest _ h]

/-! Behaviour of the cache row store. -/

theorem setMany_append {α : Type} (d : Option Str) (u : Str) :
    ∀ (l : List (α × Nat)) (rows : List (CacheRow α)),
      setMany rows d u l = rows ++ l.map (fun ct => ⟨d, u, ct.1, ct.2⟩) := by
  intro l
  induction l with
  | nil => intro rows; simp [setMany]
  | cons x xs ih =>
    intro rows
    simp only [setMany, List.foldl_cons] at *
    rw [ih (cache_set rows d u x.1 x.2)]
    simp [cache_set]
/-! The claims. -/

/-- C1 counterexample: two `set` calls for the same key at times 0 and 1
followed by a fresh `get` (TTL 7 days, read at time 2) return the
content of the first-inserted row, not of the most recently inserted
one: the unordered `SELECT` reads `row[0]`, the oldest matching row. -/
theorem cache_get_not_newest :
    (cache_get (setMany ([] : List (CacheRow Nat)) (some (("d").data)) (("u").data)
        [(1, 0), (2, 1)]) 7 (some (("d").data)) (("u").data) 2).1 = some 1
    ∧ (cache_get (setMany ([] : List (CacheRow Nat)) (some (("d").data)) (("u").data)
        [(1, 0), (2, 1)]) 7 (some (("d").data)) (("u").data) 2).1 ≠ some 2 := by
  exact ⟨rfl, by decide⟩

/-- C1 (amended): after `set(d, u, c1), ..., set(d, u, cn)` on a table
with no matching rows, `get(d, u)` returns the content of the FIRST
inserted matching row, c1, provided that row is within the TTL (the code
reads `row[0]` of an unordered `SELECT`, i.e. the oldest row, not the
newest by store timestamp). -/
theorem cache_get_first_inserted {α : Type} [DecidableEq α] (rows : List (CacheRow α))
    (d : Option Str) (u : Str) (c : α) (t : Nat) (l : List (α × Nat)) (now refresh : Nat)
    (hbase : rows.filter (fun r => decide (r.domain = d) && decide (r.url = u)) = [])
    (hfresh : ¬ (t + refresh < now)) :
    (cache_get (setMany rows d u ((c, t) :: l)) refresh d u now).1 = some c := by
  rw [setMany_append]
  unfold cache_get
  rw [List.filter_append, hbase]
  have hall : (((c, t) :: l).map (fun ct => (⟨d, u, ct.1, ct.2⟩ : CacheRow α))).filter
      (fun r => decide (r.domain = d) && decide (r.url = u))
      = ((c, t) :: l).map (fun ct => (⟨d, u, ct.1, ct.2⟩ : CacheRow α)) := by
    apply List.filter_eq_self.mpr
    intro r hr
    simp only [List.mem_map] at hr
    obtain ⟨ct, _, rfl⟩ := hr
    simp
  rw [List.nil_append, hall]
  simp only [List.map_cons]
  rw [if_neg hfresh]

/-- C1 witness: with an empty table, `set(d, u, 1)` at day 0 then
`set(d, u, 2)` at day 1 and a `get` at day 2 with a 7-day TTL returns
the first content. -/
theorem cache_get_first_inserted_witness :
    (cache_get (setMany ([] : List (CacheRow Nat)) (some (("d").data)) (("u").data)
        [(1, 0), (2, 1)]) 7 (some (("d").data)) (("u").data) 2).1 = some 1 :=
  cache_get_first_inserted [] (some (("d").data)) (("u").data) 1 0 [(2, 1)] 2 7
    rfl (by omega)

/-- C2: an SSL failure on frontier URL B does not merely skip B — it
makes `get_html` return `None`, `BeautifulSoup(None, ...)` raises
`TypeError`, the loop's `except HTMLException` does not catch it, and
`safe_func` swallows it, so the whole run aborts (the loop result is the
`TypeError`, the decorated `crawl` returns `None`, and frontier URL C is
never visited). -/
theorem crawl_aborts_on_ssl_failure :
    crawlLoop netSSL 50 (some (netlocOf urlS)) false 0 10 none [urlS] 0 0 []
      = some (.error .typeError)
    ∧ crawl netSSL 50 true none 0 urlS false 10 = some none := ⟨rfl, rfl⟩

/-- C3 counterexample: two asset URLs with different derived file names
and identical payload bytes produce two stored files with the same
content — the store is deduplicated per destination name only, not
globally by content hash. -/
theorem download_image_duplicate_content :
    download_image netImg imgsDir [] imgU1 = some [(imageFileName imgsDir imgU1, [9])]
    ∧ download_image netImg imgsDir [(imageFileName imgsDir imgU1, [9])] imgU2
        = some [(imageFileName imgsDir imgU1, [9]), (imageFileName imgsDir imgU2, [9])]
    ∧ imageFileName imgsDir imgU1 ≠ imageFileName imgsDir imgU2 :=
  ⟨rfl, rfl, by decide⟩

/-- C3 (amended): content-hash uniqueness holds only within one derived
destination name: when two asset downloads (status 200) carry identical
payload bytes and derive the same file name, the second download leaves
the store exactly as the first left it — no second file with that
content is created.  Identical payloads under different derived names do
produce two files. -/
theorem download_image_same_name_idempotent (net : Str → FetchResult) (pathImages : Str)
    (store : FileStore) (u1 u2 : Str) (s' : FileStore) (ct1 ct2 : Str) (p1 p2 : Page)
    (c : Bytes)
    (h1 : net u1 = .ok ct1 p1 200 c) (h2 : net u2 = .ok ct2 p2 200 c)
    (hname : imageFileName pathImages u1 = imageFileName pathImages u2)
    (hdl : download_image net pathImages store u1 = some s') :
    download_image net pathImages s' u2 = some s' := by
  simp only [download_image, h1] at hdl
  simp only [download_image, h2, ← hname]
  by_cases hc : (endsWithAnyOf (imageFileName pathImages u1) suffix_list && (200 == 200)) = true
  · rw [if_pos hc] at hdl
    rw [if_pos hc]
    exact write_to_file_idem hdl
  · rw [if_neg hc] at hdl
    rw [if_neg hc]

/-- C3 witness: re-downloading the same asset URL (same name, same
bytes) after a successful download leaves the store unchanged. -/
theorem download_image_same_name_idempotent_witness :
    download_image netImg imgsDir [(imageFileName imgsDir imgU1, [9])] imgU1
      = some [(imageFileName imgsDir imgU1, [9])] :=
  download_image_same_name_idempotent netImg imgsDir [] imgU1 imgU1
    [(imageFileName imgsDir imgU1, [9])] htmlCT htmlCT ⟨[]⟩ ⟨[]⟩ [9] rfl rfl rfl rfl

/-- C4: with a 3-page budget, a start page linking to B then C and B
linking to D (all fetches HTML, status 200), the visiting order is
start, B, C — links are enqueued in document order into the FIFO
frontier — and D is never visited: the budget is exhausted at 3 pages. -/
theorem crawl_bfs_budget_order :
    crawl netBFS 3 true none 0 urlS false 10 = some (some (3, 0, [urlS, urlB, urlC]))
    ∧ urlD ∉ [urlS, urlB, urlC] := ⟨rfl, by decide⟩

/-- C5 counterexample: `str.replace` replaces every occurrence, so for a
URL whose remainder itself contains `"http://"` (here a redirect query
parameter), the https-variant built by `url_in_list` rewrites the
embedded occurrence too and the membership test fails even though the
collection contains exactly the URL with the opposite scheme. -/
theorem url_in_list_embedded_scheme_counter :
    url_in_list (httpScheme ++ embeddedRemainder) [httpsScheme ++ embeddedRemainder]
      = false := rfl

/-- C5 (amended): for every URL whose remainder after the scheme contains
no further occurrence of `"http://"` or `"https://"`, if the collection
contains the URL with the opposite scheme and an identical remainder,
`url_in_list` returns true, in both directions. -/
theorem url_in_list_scheme_variants (r : Str) (col : List Str)
    (h1 : occursIn httpScheme r = false) (h2 : occursIn httpsScheme r = false) :
    ((httpsScheme ++ r) ∈ col → url_in_list (httpScheme ++ r) col = true)
    ∧ ((httpScheme ++ r) ∈ col → url_in_list (httpsScheme ++ r) col = true) := by
  constructor
  · intro hm
    simp only [url_in_list]
    rw [replaceAll_prefix_swap (by decide) h1]
    simp [hm]
  · intro hm
    simp only [url_in_list]
    rw [replaceAll_prefix_swap (by decide) h2]
    simp [hm]

/-- C5 witness: the https variant of a clean URL is found when the
collection holds its http form. -/
theorem url_in_list_scheme_variants_witness :
    url_in_list (httpsScheme ++ ("a.com/x").data) [httpScheme ++ ("a.com/x").data] = true :=
  (url_in_list_scheme_variants (("a.com/x").data) [httpScheme ++ ("a.com/x").data]
    rfl rfl).2 (by simp)

/-- C6: writing the same bytes to the same destination twice yields
exactly one file (the second write finds the matching hash and returns);
writing different bytes to a destination holding other content leaves
the first file untouched and creates a second file named with the
counter suffix `_0` before the extension. -/
theorem write_to_file_dedup_and_collision :
    (∀ (data : Bytes) (f : Str),
      write_to_file data f [] = some [(f, data)]
      ∧ write_to_file data f [(f, data)] = some [(f, data)])
    ∧ (∀ (data data' : Bytes) (f b sfx : Str),
        rsplitDot f = some (b, sfx) → data' ≠ data →
        write_to_file data' f [(f, data)]
          = some [(f, data), (chainName b sfx 0, data')]) := by
  constructor
  · intro data f
    constructor
    · rfl
    · show writeLoop [(f, data)] data f 3 f 0 = some [(f, data)]
      simp [writeLoop, lookupFile]
  · intro data data' f b sfx hf hne
    show writeLoop [(f, data)] data' f 3 f 0 = some [(f, data), (chainName b sfx 0, data')]
    have hne1 : ¬ (data = data') := fun hh => hne hh.symm
    have hne2 : ¬ (f = chainName b sfx 0) := fun hh => chainName_ne_base hf 0 hh.symm
    simp [writeLoop, lookupFile, hf, hne1, hne2]

/-- C6 witness: over a store holding `a.jpg`, writing different bytes to
`a.jpg` produces `a_0.jpg` and leaves `a.jpg` untouched. -/
theorem write_to_file_dedup_and_collision_witness :
    write_to_file [2] (("a.jpg").data) [((("a.jpg").data), [1])]
      = some [((("a.jpg").data), [1]), ((("a_0.jpg").data), [2])] := by
  have h := write_to_file_dedup_and_collision.2 [1] [2] (("a.jpg").data) (("a").data)
    (("jpg").data) rfl (by decide)
  rw [h]
  rfl

/-- C7 counterexample: for a destination file name without a dot, the
first differing-content collision makes `rsplit('.', 1)` yield a single
part and the unpacking raises `ValueError` — the loop neither writes an
unused name nor returns on identical content. -/
theorem write_to_file_no_extension_raises :
    write_to_file [2] (("abc").data) [((("abc").data), [1])] = none := rfl

/-- C7 (amended): for every payload, every destination file name that
contains a dot (so that `rsplit('.', 1)` yields base and extension) and
every finite store, the collision loop terminates: the counter-indexed
candidate names are pairwise distinct, so within `|store| + 2` iterations
it either finds an identical-content file and returns the store
unchanged, or writes the payload under an unused name. -/
theorem write_to_file_terminates (store : FileStore) (data : Bytes) (f b sfx : Str)
    (hf : rsplitDot f = some (b, sfx)) :
    ∃ s', write_to_file data f store = some s'
      ∧ (s' = store ∨ ∃ n, lookupFile store n = none ∧ s' = store ++ [(n, data)]) := by
  obtain ⟨s', hs⟩ := @write_to_file_total store data f b sfx hf
  exact ⟨s', hs, writeLoop_some_shape store data f _ _ _ _ hs⟩

/-- C7 witness: a write into a store holding an unrelated file
terminates with a result. -/
theorem write_to_file_terminates_witness :
    ∃ s', write_to_file [2] (("a.jpg").data) [((("b.jpg").data), [1])] = some s'
      ∧ (s' = [((("b.jpg").data), [1])]
         ∨ ∃ n, lookupFile [((("b.jpg").data), [1])] n = none
             ∧ s' = [((("b.jpg").data), [1])] ++ [(n, [2])]) :=
  write_to_file_terminates [((("b.jpg").data), [1])] [2] (("a.jpg").data)
    (("a").data) (("jpg").data) rfl

/-- C8: with two input domains for which every sub-page and product
fetch fails with a connection error (first domain) or answers 404
(second domain), the pool output has exactly two records, each with
empty email, facebook and twitter values and `title 1..5` / `image 1..5`
all equal to the empty string. -/
theorem worker_pool_empty_domains :
    run_pool net8 items8 = [expectedRecord dom1, expectedRecord dom2]
    ∧ (run_pool net8 items8).length = 2 := ⟨by decide, rfl⟩

/-- C9: `Crawler.crawl` never propagates an exception: whenever the loop
body ends in any exception, the `safe_func`-decorated `crawl` returns
`None` (silently ending the whole run), and when the body completes,
`crawl` passes its outcome through. -/
theorem crawl_swallows_all_exceptions (net : Str → FetchResult) (maxPages : Nat)
    (singleDomain : Bool) (cache : Option CacheState) (now : Nat) (start : Str)
    (noCache : Bool) (fuel : Nat) :
    (∀ e, crawlLoop net maxPages (if singleDomain then some (netlocOf start) else none)
        noCache now fuel cache [start] 0 0 [] = some (.error e) →
      crawl net maxPages singleDomain cache now start noCache fuel = some none)
    ∧ (∀ v, crawlLoop net maxPages (if singleDomain then some (netlocOf start) else none)
        noCache now fuel cache [start] 0 0 [] = some (.ok v) →
      crawl net maxPages singleDomain cache now start noCache fuel = some (some v)) := by
  constructor
  · intro e h
    simp only [crawl, h]
    rfl
  · intro v h
    simp only [crawl, h]
    rfl

/-- C9 witness: the `TypeError` of the SSL scenario is swallowed and the
run returns `None`. -/
theorem crawl_swallows_all_exceptions_witness :
    crawl netSSL 50 true none 0 urlS false 10 = some none :=
  (crawl_swallows_all_exceptions netSSL 50 true none 0 urlS false 10).1 .typeError rfl

/-- C10: `download_image` writes a file only when the name derived from
the URL's last path segment ends with a whitelisted suffix and the
status is 200: whenever the fetch fails, or the response fails either
condition, the store is returned unchanged. -/
theorem download_image_writes_only_on_suffix_and_ok (net : Str → FetchResult)
    (pathImages : Str) (store : FileStore) (imgUrl : Str)
    (h : ∀ ct p status content, net imgUrl = .ok ct p status content →
      ¬(endsWithAnyOf (imageFileName pathImages imgUrl) suffix_list = true ∧ status = 200)) :
    download_image net pathImages store imgUrl = some store := by
  cases hn : net imgUrl with
  | excSchema => simp [download_image, hn]
  | excSSL => simp [download_image, hn]
  | ok ct p status content =>
    have hcond := h ct p status content hn
    have hfalse : (endsWithAnyOf (imageFileName pathImages imgUrl) suffix_list
        && (status == 200)) = false := by
      cases he : endsWithAnyOf (imageFileName pathImages imgUrl) suffix_list with
      | false => simp
      | true =>
        simp only [Bool.true_and]
        cases hs : (status == 200) with
        | false => rfl
        | true => exact absurd ⟨he, by simpa using hs⟩ hcond
    simp [download_image, hn, hfalse]

/-- C10 witness: a 404 response for a well-suffixed asset URL leaves the
store unchanged. -/
theorem download_image_writes_only_on_suffix_and_ok_witness :
    download_image netNotFound imgsDir [] imgU1 = some [] :=
  download_image_writes_only_on_suffix_and_ok netNotFound imgsDir [] imgU1
    (by
      intro ct p status content hn
      cases hn
      intro hcon
      omega)

end CrawlerModel
